import Mathlib

/-!
Verification development for the goxtool market-state engine (goxtool.py).

The definitions below are a shallow embedding of the order-book maintainer
(`OrderBook`), the trade-to-candle aggregator (`History`), the signal bus
(`Signal.send`), the authenticated-call gate (`BaseClient.http_signed_call`,
`Gox.order`, `Gox.cancel`) and the currency filters of the message dispatcher
(`Gox._on_tick`, `Gox._on_depth`, `Gox._on_trade`). Prices, volumes and
timestamps are modelled as unbounded integers (the Python source uses plain
ints). Emission of `signal_changed` is modelled by returning the number of
emissions next to the new state.
-/

namespace Goxtool

/-- An entry of the order book, mirroring class `Order` of goxtool.py:
`Order(price, volume, typ, oid="", status="")`. -/
structure Order where
  price : Int
  volume : Int
  typ : String
  oid : String
  status : String
deriving DecidableEq, Repr

/-- The mutable state of class `OrderBook`: the two ladders, the own orders
and the cached top of book. -/
structure Book where
  asks : List Order
  bids : List Order
  owns : List Order
  bid : Int
  ask : Int
deriving DecidableEq, Repr

/-- The book as constructed by `OrderBook.__init__`. -/
def emptyBook : Book := ⟨[], [], [], 0, 0⟩

/-- Helper `must_insert_before(existing, new, typ)` nested in
`OrderBook.slot_depth`: asks are ascending, bids descending. -/
def must_insert_before (existing newPrice : Int) (typ : String) : Bool :=
  if typ = "ask" then existing > newPrice else existing < newPrice

/-- The scan of `update_list` (nested in `OrderBook.slot_depth`) for
`total_vol > 0`: overwrite the volume at a matching price, insert before the
first level that must come after the new one, append when the scan runs out
(`if i == cnt - 1: lst.append(...)`; the `cnt == 0` case also yields a
 singleton). -/
def depth_insert (price total_vol : Int) (typ : String) : List Order → List Order
  | [] => [⟨price, total_vol, typ, "", ""⟩]
  | o :: rest =>
    if o.price = price then { o with volume := total_vol } :: rest
    else if must_insert_before o.price price typ then
      ⟨price, total_vol, typ, "", ""⟩ :: o :: rest
    else o :: depth_insert price total_vol typ rest

/-- The scan of `update_list` (nested in `OrderBook.slot_depth`) for the
`else` branch: pop the first level with a matching price. -/
def depth_remove (price : Int) : List Order → List Order
  | [] => []
  | o :: rest => if o.price = price then rest else o :: depth_remove price rest

/-- `update_list(lst, price, total_vol, typ)` nested in
`OrderBook.slot_depth`. -/
def update_list (lst : List Order) (price total_vol : Int) (typ : String) :
    List Order :=
  if total_vol > 0 then depth_insert price total_vol typ lst
  else depth_remove price lst

/-- `OrderBook.slot_depth`. The second component counts the emissions of
`signal_changed` (the send at the end is unconditional). -/
def slot_depth (b : Book) (typ : String) (price dummy_voldiff total_vol : Int) :
    Book × Nat :=
  let b1 := if typ = "ask" then
      { b with asks := update_list b.asks price total_vol "ask" } else b
  let b2 := if typ = "bid" then
      { b1 with bids := update_list b1.bids price total_vol "bid" } else b1
  (b2, 1)

/-- `update_list(lst, price, volume)` nested in `OrderBook.slot_trade`.
In the source the `break` sits at the level of the `if lst[i].price == price`
test, so the loop body runs for `i = 0` only: only the first element of the
list is ever examined. -/
def trade_update_list (lst : List Order) (price volume : Int) : List Order :=
  match lst with
  | [] => []
  | o :: rest =>
    if o.price = price then
      if o.volume - volume ≤ 0 then rest
      else { o with volume := o.volume - volume } :: rest
    else o :: rest

/-- `OrderBook.slot_trade`. For `own = False` both public ladders are updated
and the cached top of book is refreshed from the non-empty ladders; for
`own = True` only `owns` is updated. `signal_changed` is sent once in either
case. -/
def slot_trade (b : Book) (dummy_date price volume : Int) (own : Bool) :
    Book × Nat :=
  if own then ({ b with owns := trade_update_list b.owns price volume }, 1)
  else
    let asks := trade_update_list b.asks price volume
    let bids := trade_update_list b.bids price volume
    let ask := match asks with | [] => b.ask | o :: _ => o.price
    let bid := match bids with | [] => b.bid | o :: _ => o.price
    ({ b with asks := asks, bids := bids, ask := ask, bid := bid }, 1)

/-- `OrderBook.slot_ticker`: store the ticker's bid and ask, then pop the
front of `asks` while `asks[0].price < ask` and the front of `bids` while
`bids[0].price > bid`; `signal_changed` is sent only when a pop happened. -/
def slot_ticker (b : Book) (bid ask : Int) : Book × Nat :=
  let asks := b.asks.dropWhile (fun o => o.price < ask)
  let bids := b.bids.dropWhile (fun o => o.price > bid)
  let change := asks.length != b.asks.length || bids.length != b.bids.length
  ({ b with bid := bid, ask := ask, asks := asks, bids := bids },
   if change then 1 else 0)

/-- The removal scan of `OrderBook.slot_user_order` for `status == "removed"`:
pop the first own order with the given oid. -/
def owns_remove (oid : String) : List Order → List Order
  | [] => []
  | o :: rest => if o.oid = oid then rest else o :: owns_remove oid rest

/-- The update scan of `OrderBook.slot_user_order` for other statuses:
overwrite volume and status of the first own order with the given oid,
`none` when the oid is not found. -/
def owns_update (oid : String) (volume : Int) (status : String) :
    List Order → Option (List Order)
  | [] => none
  | o :: rest =>
    if o.oid = oid then some ({ o with volume := volume, status := status } :: rest)
    else (owns_update oid volume status rest).map (fun l => o :: l)

/-- `OrderBook.slot_user_order`; appends a fresh order when the oid is
unknown. `signal_changed` is sent once on every call. -/
def slot_user_order (b : Book) (price volume : Int) (typ oid status : String) :
    Book × Nat :=
  if status = "removed" then ({ b with owns := owns_remove oid b.owns }, 1)
  else
    match owns_update oid volume status b.owns with
    | some owns => ({ b with owns := owns }, 1)
    | none =>
      ({ b with owns := b.owns ++ [⟨price, volume, typ, oid, status⟩] }, 1)

/-- `OrderBook.slot_fulldepth`: wipe both ladders, append the snapshot's asks
in their given order and insert each snapshot bid at position 0 (reversing
the given order). One `signal_changed` at the end. Snapshot entries are
`(price_int, amount_int)` pairs. -/
def slot_fulldepth (b : Book) (asks bids : List (Int × Int)) : Book × Nat :=
  let newAsks := asks.foldl (fun acc pv => acc ++ [Order.mk pv.1 pv.2 "ask" "" ""]) []
  let newBids := bids.foldl (fun acc pv => Order.mk pv.1 pv.2 "bid" "" "" :: acc) []
  ({ b with asks := newAsks, bids := newBids }, 1)

/-- The events the public order book consumes (trade events with
`own = False`). -/
inductive Event
  | ticker (bid ask : Int)
  | depth (typ : String) (price voldiff total_vol : Int)
  | trade (date price volume : Int)
  | fulldepth (asks bids : List (Int × Int))
deriving DecidableEq, Repr

/-- One dispatcher step: apply an event to the book. -/
def applyEvent (b : Book) : Event → Book
  | .ticker bid ask => (slot_ticker b bid ask).fst
  | .depth typ price voldiff total_vol => (slot_depth b typ price voldiff total_vol).fst
  | .trade date price volume => (slot_trade b date price volume false).fst
  | .fulldepth asks bids => (slot_fulldepth b asks bids).fst

/-- The book reached from `b` by a sequence of events. -/
def reach (b : Book) (events : List Event) : Book := events.foldl applyEvent b

/-- Sort order of a ladder: `<` on prices for the ask side, `>` otherwise
(mirrors `must_insert_before`). -/
abbrev ordRel (typ : String) (a b : Int) : Prop :=
  if typ = "ask" then a < b else b < a

/-- A ladder is sorted for its side: strictly ascending asks, strictly
descending bids. -/
abbrev sortedLadder (typ : String) (l : List Order) : Prop :=
  l.Pairwise (fun a b => ordRel typ a.price b.price)

/-- All volumes of a ladder are strictly positive. -/
abbrev posVolumes (l : List Order) : Prop := ∀ o ∈ l, 0 < o.volume

/-- The ladder invariants of the order book. -/
abbrev bookInv (b : Book) : Prop :=
  sortedLadder "ask" b.asks ∧ sortedLadder "bid" b.bids ∧
    posVolumes b.asks ∧ posVolumes b.bids

/-- A well-formed full-depth snapshot side: strictly ascending prices and
positive volumes. -/
abbrev goodSnapshot (l : List (Int × Int)) : Prop :=
  l.Pairwise (fun a b => a.1 < b.1) ∧ ∀ pv ∈ l, 0 < pv.2

/-- Events whose payload is well formed: only full-depth snapshots are
constrained. -/
abbrev goodEvent : Event → Prop
  | .fulldepth asks bids => goodSnapshot asks ∧ goodSnapshot bids
  | _ => True

/-- A chart candle, mirroring class `OHLCV`. -/
structure OHLCV where
  tim : Int
  opn : Int
  hig : Int
  low : Int
  cls : Int
  vol : Int
deriving DecidableEq, Repr

/-- `OHLCV.update(price, volume)`. -/
def OHLCV.update (c : OHLCV) (price volume : Int) : OHLCV :=
  { c with
    hig := if price > c.hig then price else c.hig,
    low := if price < c.low then price else c.low,
    cls := price,
    vol := c.vol + volume }

/-- `History.slot_trade` acting on the candle list (`candles[0]` is the
newest candle; `int(date / timeframe)` is Python 2 floor division). -/
def history_slot_trade (timeframe : Int) (candles : List OHLCV)
    (date price volume : Int) (own : Bool) : List OHLCV :=
  if own then candles
  else
    let time_round := Int.fdiv date timeframe * timeframe
    match candles with
    | [] => OHLCV.mk time_round price price price price volume :: candles
    | candle :: rest =>
      if candle.tim = time_round then candle.update price volume :: rest
      else OHLCV.mk time_round price price price price volume :: candle :: rest

/-- One trade record of the full-history snapshot (`date`, `price_int`,
`amount_int`). -/
structure TradeRec where
  date : Int
  price_int : Int
  amount_int : Int
deriving DecidableEq, Repr

/-- The loop body of `History.slot_fullhistory`: on entering a newer bucket
the previous working candle is prepended (when real) and a fresh candle is
built with the trade's volume; then `update` is called on the working candle
for every trade, including the one that just created it. -/
def fullhistory_step (timeframe : Int) (acc : List OHLCV × OHLCV)
    (trade : TradeRec) : List OHLCV × OHLCV :=
  let time_round := Int.fdiv trade.date timeframe * timeframe
  let acc1 :=
    if time_round > acc.snd.tim then
      ((if acc.snd.tim > 0 then acc.snd :: acc.fst else acc.fst),
       OHLCV.mk time_round trade.price_int trade.price_int trade.price_int
         trade.price_int trade.amount_int)
    else acc
  (acc1.fst, acc1.snd.update trade.price_int trade.amount_int)

/-- `History.slot_fullhistory`: reset the candle list, fold the trades, then
insert the current (incomplete) working candle at the front. -/
def slot_fullhistory (timeframe : Int) (history : List TradeRec) : List OHLCV :=
  let acc := history.foldl (fullhistory_step timeframe) ([], OHLCV.mk 0 0 0 0 0 0)
  acc.snd :: acc.fst

/-- A subscriber of a `Signal` (slot): invoked with the payload, it either
returns normally or raises (modelled by `Except`). -/
abbrev SlotFun := Int → Except String Unit

/-- The loop of `Signal.send`: each slot is called in registration order
inside a `try`; `received` becomes `True` after a slot returns without
raising, an exception is logged and the loop continues. The first component
is the ordered list of invocation outcomes, the second the returned
`received` flag. -/
def send_go (data : Int) : List SlotFun → Bool → List (Except String Unit) × Bool
  | [], received => ([], received)
  | s :: rest, received =>
    match s data with
    | Except.ok u =>
      let r := send_go data rest true
      (Except.ok u :: r.fst, r.snd)
    | Except.error e =>
      let r := send_go data rest received
      (Except.error e :: r.fst, r.snd)

/-- `Signal.send(sender, data)` with `received = False` initially. -/
def send (slots : List SlotFun) (data : Int) : List (Except String Unit) × Bool :=
  send_go data slots false

/-- A slot that always raises. -/
def bad_slot : SlotFun := fun _ => Except.error "boom"

/-- The credential pair held by class `Secret`. -/
structure ApiSecret where
  key : String
  secret : String
deriving DecidableEq, Repr

/-- `Secret.know_secret`: `(self.secret != "") and (self.key != "")`. -/
def know_secret (s : ApiSecret) : Bool := s.secret ≠ "" && s.key ≠ ""

/-- A decoded JSON object reply of the HTTP API, as a flat key/value list
(the code only reads the `result` and `return` fields). -/
abbrev HttpResponse := List (String × String)

/-- `BaseClient.http_signed_call(api_endpoint, params)`: without a known
secret it logs and returns `None` without any request; otherwise it performs
one HTTP request (the server is an oracle from endpoint to reply). The
components are (returned value, requests performed, debug log). -/
def http_signed_call (sec : ApiSecret) (server : String → HttpResponse)
    (api_endpoint : String) : Option HttpResponse × List String × List String :=
  if !know_secret sec then
    (none, [], ["### don\x27t know secret, cannot call " ++ api_endpoint])
  else
    (some (server api_endpoint), [api_endpoint], [])

/-- The observable outcome of `Gox.order` / `Gox.cancel`: the returned value
(or the uncaught exception), the HTTP requests performed, the
`signal_userorder` emissions `(price, volume, typ, oid, status)` and the
debug log. -/
structure CallOutcome (α : Type) where
  result : Except String α
  requests : List String
  signals : List (Int × Int × String × String × String)
  log : List String
deriving Repr

/-- `Gox.order(typ, price, volume)`: calls `http_signed_call` and then
evaluates `"result" in res`, which in Python raises a `TypeError` when `res`
is `None`; on `res["result"] == "success"` it emits `signal_userorder` and
returns `res["return"]`, otherwise it logs and returns the empty string. -/
def gox_order (sec : ApiSecret) (server : String → HttpResponse)
    (currency typ : String) (price volume : Int) : CallOutcome String :=
  let endpoint := "BTC" ++ currency ++ "/private/order/add"
  match http_signed_call sec server endpoint with
  | (none, reqs, log) =>
    { result := Except.error "TypeError: argument of type NoneType is not iterable",
      requests := reqs, signals := [], log := log }
  | (some res, reqs, log) =>
    if res.lookup "result" = some "success" then
      match res.lookup "return" with
      | some oid =>
        { result := Except.ok oid, requests := reqs,
          signals := [(price, volume, typ, oid, "pending")], log := log }
      | none =>
        { result := Except.error "KeyError: return", requests := reqs,
          signals := [], log := log }
    else
      { result := Except.ok "", requests := reqs, signals := [],
        log := log ++ ["### WTF??? order could not be placed!"] }

/-- `Gox.cancel(oid)`: same shape as `Gox.order`; on success it emits
`signal_userorder(0, 0, "", res["return"], "removed")` and returns `True`,
otherwise it logs and returns `False`. -/
def gox_cancel (sec : ApiSecret) (server : String → HttpResponse)
    (currency oid : String) : CallOutcome Bool :=
  let endpoint := "BTC" ++ currency ++ "/private/order/cancel"
  match http_signed_call sec server endpoint with
  | (none, reqs, log) =>
    { result := Except.error "TypeError: argument of type NoneType is not iterable",
      requests := reqs, signals := [], log := log }
  | (some res, reqs, log) =>
    if res.lookup "result" = some "success" then
      match res.lookup "return" with
      | some ret =>
        { result := Except.ok true, requests := reqs,
          signals := [(0, 0, "", ret, "removed")], log := log }
      | none =>
        { result := Except.error "KeyError: return", requests := reqs,
          signals := [], log := log }
    else
      { result := Except.ok false, requests := reqs, signals := [],
        log := log ++ ["### WTF??? order could not be canceled!"] }

/-- The empty credential pair (read-only mode). -/
def no_secret : ApiSecret := ⟨"", ""⟩

/-- A server oracle that would answer every call with success. -/
def stub_server : String → HttpResponse :=
  fun _ => [("result", "success"), ("return", "oid1")]

/-- The fields of an inbound ticker message read by `Gox._on_tick`. -/
structure TickerMsg where
  sell_currency : String
  sell_value_int : Int
  buy_currency : String
  buy_value_int : Int
deriving DecidableEq, Repr

/-- The fields of an inbound depth message read by `Gox._on_depth`. -/
structure DepthMsg where
  currency : String
  type_str : String
  price_int : Int
  volume_int : Int
  total_volume_int : Int
deriving DecidableEq, Repr

/-- The fields of an inbound trade message read by `Gox._on_trade`. -/
structure TradeMsg where
  price_currency : String
  channel : String
  date : Int
  price_int : Int
  amount_int : Int
deriving DecidableEq, Repr

/-- The state downstream of the gox-level signals: the order book and the
candle history (timeframe 60 * 15 as in `Gox.__init__`). -/
structure EngineState where
  book : Book
  candles : List OHLCV
deriving DecidableEq, Repr

/-- `Gox._on_tick` composed with delivery of `signal_ticker` to
`OrderBook.slot_ticker`. The counter counts `signal_ticker` emissions; a
currency mismatch returns before emitting. -/
def gox_on_tick (currency : String) (st : EngineState) (m : TickerMsg) :
    EngineState × Nat :=
  if m.sell_currency ≠ currency then (st, 0)
  else
    let ask := m.sell_value_int
    let bid := m.buy_value_int
    ({ st with book := (slot_ticker st.book bid ask).fst }, 1)

/-- `Gox._on_depth` composed with delivery of `signal_depth` to
`OrderBook.slot_depth`. -/
def gox_on_depth (currency : String) (st : EngineState) (m : DepthMsg) :
    EngineState × Nat :=
  if m.currency ≠ currency then (st, 0)
  else
    ({ st with book := (slot_depth st.book m.type_str m.price_int m.volume_int
        m.total_volume_int).fst }, 1)

/-- `Gox._on_trade` composed with delivery of `signal_trade` to
`History.slot_trade` and `OrderBook.slot_trade`; the public channel id marks
`own = False`. -/
def gox_on_trade (currency : String) (st : EngineState) (m : TradeMsg) :
    EngineState × Nat :=
  if m.price_currency ≠ currency then (st, 0)
  else
    let own := m.channel ≠ "dbf1dee9-4f2e-4a08-8cb7-748919a71b21"
    ({ book := (slot_trade st.book m.date m.price_int m.amount_int own).fst,
       candles := history_slot_trade (60 * 15) st.candles m.date m.price_int
         m.amount_int own }, 1)

/-! ### Helper lemmas -/

/-- A `dropWhile` that kept the length of the list kept the list. -/
theorem dropWhile_length_eq {α : Type} (p : α → Bool) (l : List α)
    (h : (l.dropWhile p).length = l.length) : l.dropWhile p = l :=
  (List.IsSuffix.sublist (List.dropWhile_suffix p)).eq_of_length h

/-- `slot_ticker` emits `signal_changed` zero times exactly when it leaves
both ladders unchanged. -/
theorem slot_ticker_noop_iff (b : Book) (bid ask : Int) :
    (slot_ticker b bid ask).snd = 0 ↔
      (slot_ticker b bid ask).fst.asks = b.asks ∧
      (slot_ticker b bid ask).fst.bids = b.bids := by
  have hA : (slot_ticker b bid ask).fst.asks =
      b.asks.dropWhile (fun o => o.price < ask) := rfl
  have hB : (slot_ticker b bid ask).fst.bids =
      b.bids.dropWhile (fun o => o.price > bid) := rfl
  have hsnd : (slot_ticker b bid ask).snd =
      if ((b.asks.dropWhile (fun o => o.price < ask)).length != b.asks.length ||
          (b.bids.dropWhile (fun o => o.price > bid)).length != b.bids.length)
      then 1 else 0 := rfl
  rw [hA, hB, hsnd]
  by_cases h1 : (b.asks.dropWhile (fun o => o.price < ask)).length = b.asks.length
  · by_cases h2 : (b.bids.dropWhile (fun o => o.price > bid)).length = b.bids.length
    · have e1 := dropWhile_length_eq _ _ h1
      have e2 := dropWhile_length_eq _ _ h2
      simp [e1, e2]
    · apply iff_of_false
      · have hb2 : ((b.bids.dropWhile (fun o => o.price > bid)).length
            != b.bids.length) = true := by simpa using h2
        simp [hb2]
      · rintro ⟨e1, e2⟩
        exact h2 (by rw [e2])
  · apply iff_of_false
    · have ha1 : ((b.asks.dropWhile (fun o => o.price < ask)).length
          != b.asks.length) = true := by simpa using h1
      simp [ha1]
    · rintro ⟨e1, e2⟩
      exact h1 (by rw [e1])

/-- Did slot `s` receive the payload without raising? -/
def slot_ok (data : Int) (s : SlotFun) : Bool :=
  match s data with
  | Except.ok _ => true
  | Except.error _ => false

/-- `Signal.send` invokes every slot in registration order, whether or not
earlier slots raised. -/
theorem send_go_trace (data : Int) :
    ∀ (slots : List SlotFun) (received : Bool),
      (send_go data slots received).fst = slots.map (fun s => s data) := by
  intro slots
  induction slots with
  | nil => intro received; rfl
  | cons s rest ih =>
    intro received
    cases hs : s data with
    | ok u => simp [send_go, hs, ih]
    | error e => simp [send_go, hs, ih]

/-- The `received` flag of `Signal.send` after a list of slots. -/
theorem send_go_flag (data : Int) :
    ∀ (slots : List SlotFun) (received : Bool),
      (send_go data slots received).snd = (received || slots.any (slot_ok data)) := by
  intro slots
  induction slots with
  | nil => intro received; simp [send_go]
  | cons s rest ih =>
    intro received
    cases hs : s data with
    | ok u => simp [send_go, hs, ih, slot_ok, List.any_cons]
    | error e => simp [send_go, hs, ih, slot_ok, List.any_cons]

instance (typ : String) (a b : Int) : Decidable (ordRel typ a b) := by
  unfold ordRel
  split <;> infer_instance

/-- `ordRel` on the ask side is ascending. -/
theorem ordRel_ask (a b : Int) : ordRel "ask" a b ↔ a < b := Iff.rfl

/-- `ordRel` on the bid side is descending. -/
theorem ordRel_bid (a b : Int) : ordRel "bid" a b ↔ b < a := Iff.rfl

/-- `ordRel` is transitive on each side. -/
theorem ordRel_trans (typ : String) {a b c : Int}
    (h1 : ordRel typ a b) (h2 : ordRel typ b c) : ordRel typ a c := by
  by_cases ht : typ = "ask" <;> simp [ordRel, ht] at * <;> omega

/-- `ordRel` relates only distinct prices. -/
theorem ordRel_ne (typ : String) {a b : Int} (h : ordRel typ a b) : a ≠ b := by
  by_cases ht : typ = "ask" <;> simp [ordRel, ht] at h <;> omega

/-- A level that must be inserted before an existing one comes before it in
the side's order. -/
theorem mib_true {typ : String} {e n : Int}
    (h : must_insert_before e n typ = true) : ordRel typ n e := by
  by_cases ht : typ = "ask" <;> simp [must_insert_before, ht] at h <;>
    simp [ordRel, ht] <;> omega

/-- A distinct level that need not be inserted before an existing one comes
after it in the side's order. -/
theorem mib_false {typ : String} {e n : Int}
    (h : must_insert_before e n typ = false) (hne : e ≠ n) : ordRel typ e n := by
  by_cases ht : typ = "ask" <;> simp [must_insert_before, ht] at h <;>
    simp [ordRel, ht] <;> omega

/-- Converse direction: an existing level ordered before the new price does
not trigger insertion. -/
theorem ordRel_mib_false {typ : String} {e n : Int}
    (h : ordRel typ e n) : must_insert_before e n typ = false := by
  by_cases ht : typ = "ask" <;> simp [ordRel, ht] at h <;>
    simp [must_insert_before, ht] <;> omega

/-- Every element of `depth_insert` comes from the input list or carries the
new price and volume. -/
theorem depth_insert_mem {price total_vol : Int} {typ : String} :
    ∀ {l : List Order} {x : Order}, x ∈ depth_insert price total_vol typ l →
      x ∈ l ∨ (x.price = price ∧ x.volume = total_vol) := by
  intro l
  induction l with
  | nil =>
    intro x hx
    simp only [depth_insert, List.mem_singleton] at hx
    subst hx
    exact Or.inr ⟨rfl, rfl⟩
  | cons o rest ih =>
    intro x hx
    by_cases h1 : o.price = price
    · simp only [depth_insert, if_pos h1] at hx
      rcases List.mem_cons.mp hx with hx | hx
      · subst hx; exact Or.inr ⟨h1, rfl⟩
      · exact Or.inl (List.mem_cons_of_mem _ hx)
    · simp only [depth_insert, if_neg h1] at hx
      by_cases h2 : must_insert_before o.price price typ = true
      · rw [if_pos h2] at hx
        rcases List.mem_cons.mp hx with hx | hx
        · subst hx; exact Or.inr ⟨rfl, rfl⟩
        · exact Or.inl hx
      · rw [if_neg h2] at hx
        rcases List.mem_cons.mp hx with hx | hx
        · subst hx; exact Or.inl (List.mem_cons_self x rest)
        · rcases ih hx with hx | hx
          · exact Or.inl (List.mem_cons_of_mem _ hx)
          · exact Or.inr hx

/-- `depth_insert` keeps the ladder sorted for its side. -/
theorem depth_insert_sorted {typ : String} {price total_vol : Int} :
    ∀ {l : List Order}, sortedLadder typ l →
      sortedLadder typ (depth_insert price total_vol typ l) := by
  intro l
  induction l with
  | nil => intro _; simp [depth_insert, sortedLadder]
  | cons o rest ih =>
    intro hs
    rcases List.pairwise_cons.mp hs with ⟨hhead, htail⟩
    by_cases h1 : o.price = price
    · simp only [depth_insert, if_pos h1]
      exact List.pairwise_cons.mpr ⟨hhead, htail⟩
    · simp only [depth_insert, if_neg h1]
      by_cases h2 : must_insert_before o.price price typ = true
      · rw [if_pos h2]
        refine List.pairwise_cons.mpr ⟨?_, hs⟩
        intro x hx
        rcases List.mem_cons.mp hx with rfl | hx
        · exact mib_true h2
        · exact ordRel_trans typ (mib_true h2) (hhead x hx)
      · rw [if_neg h2]
        refine List.pairwise_cons.mpr ⟨?_, ih htail⟩
        intro x hx
        rcases depth_insert_mem hx with hx | ⟨hxp, _⟩
        · exact hhead x hx
        · rw [hxp]
          exact mib_false (by simpa using h2) h1

/-- `depth_insert` keeps all volumes positive when the new total is
positive. -/
theorem depth_insert_pos {typ : String} {price total_vol : Int}
    (htv : 0 < total_vol) {l : List Order} (hp : posVolumes l) :
    posVolumes (depth_insert price total_vol typ l) := by
  intro x hx
  rcases depth_insert_mem hx with hx | ⟨_, hv⟩
  · exact hp x hx
  · rw [hv]; exact htv

/-- `depth_remove` only removes entries. -/
theorem depth_remove_sublist (price : Int) :
    ∀ l : List Order, (depth_remove price l).Sublist l := by
  intro l
  induction l with
  | nil => simp [depth_remove]
  | cons o rest ih =>
    by_cases h : o.price = price
    · simp only [depth_remove, if_pos h]
      exact List.sublist_cons_self o rest
    · simp only [depth_remove, if_neg h]
      exact List.Sublist.cons₂ o ih

/-- `update_list` of `slot_depth` preserves the ladder invariants. -/
theorem update_list_inv {typ : String} {price total_vol : Int} {l : List Order}
    (hs : sortedLadder typ l) (hp : posVolumes l) :
    sortedLadder typ (update_list l price total_vol typ) ∧
      posVolumes (update_list l price total_vol typ) := by
  unfold update_list
  by_cases h : total_vol > 0
  · simp only [if_pos h]
    exact ⟨depth_insert_sorted hs, depth_insert_pos h hp⟩
  · simp only [if_neg h]
    have hsub := depth_remove_sublist price l
    exact ⟨hs.sublist hsub, fun x hx => hp x (hsub.subset hx)⟩

/-- `update_list` of `slot_trade` preserves the ladder invariants. -/
theorem trade_update_inv {price volume : Int} {typ : String} {l : List Order}
    (hs : sortedLadder typ l) (hp : posVolumes l) :
    sortedLadder typ (trade_update_list l price volume) ∧
      posVolumes (trade_update_list l price volume) := by
  cases l with
  | nil => exact ⟨hs, hp⟩
  | cons o rest =>
    rcases List.pairwise_cons.mp hs with ⟨hhead, htail⟩
    by_cases h1 : o.price = price
    · by_cases h2 : o.volume - volume ≤ 0
      · simp only [trade_update_list, if_pos h1, if_pos h2]
        exact ⟨htail, fun x hx => hp x (List.mem_cons_of_mem _ hx)⟩
      · simp only [trade_update_list, if_pos h1, if_neg h2]
        refine ⟨List.pairwise_cons.mpr ⟨hhead, htail⟩, ?_⟩
        intro x hx
        rcases List.mem_cons.mp hx with rfl | hx
        · show 0 < o.volume - volume
          omega
        · exact hp x (List.mem_cons_of_mem _ hx)
    · simp only [trade_update_list, if_neg h1]
      exact ⟨hs, hp⟩

/-- Appending through a left fold is `map`. -/
theorem foldl_append_map {α β : Type} (f : α → β) :
    ∀ (l : List α) (acc : List β),
      l.foldl (fun acc x => acc ++ [f x]) acc = acc ++ l.map f := by
  intro l
  induction l with
  | nil => intro acc; simp
  | cons x rest ih => intro acc; simp [ih]

/-- Prepending through a left fold reverses the `map`. -/
theorem foldl_cons_reverse_map {α β : Type} (f : α → β) :
    ∀ (l : List α) (acc : List β),
      l.foldl (fun acc x => f x :: acc) acc = (l.map f).reverse ++ acc := by
  intro l
  induction l with
  | nil => intro acc; simp
  | cons x rest ih => intro acc; simp [ih]

/-- `slot_fulldepth` establishes the ladder invariants from a well-formed
snapshot. -/
theorem slot_fulldepth_inv {b : Book} {asks bids : List (Int × Int)}
    (ha : goodSnapshot asks) (hb : goodSnapshot bids) :
    bookInv (slot_fulldepth b asks bids).fst := by
  have hasks : (slot_fulldepth b asks bids).fst.asks =
      asks.map (fun pv => Order.mk pv.1 pv.2 "ask" "" "") := by
    show asks.foldl _ [] = _
    simpa using foldl_append_map (fun pv : Int × Int => Order.mk pv.1 pv.2 "ask" "" "") asks []
  have hbids : (slot_fulldepth b asks bids).fst.bids =
      (bids.map (fun pv => Order.mk pv.1 pv.2 "bid" "" "")).reverse := by
    show bids.foldl _ [] = _
    simpa using foldl_cons_reverse_map (fun pv : Int × Int => Order.mk pv.1 pv.2 "bid" "" "") bids []
  refine ⟨?_, ?_, ?_, ?_⟩
  · rw [hasks]
    exact List.pairwise_map.mpr (ha.1.imp (fun h => (ordRel_ask _ _).mpr h))
  · rw [hbids]
    exact List.pairwise_reverse.mpr
      (List.pairwise_map.mpr (hb.1.imp (fun h => (ordRel_bid _ _).mpr h)))
  · rw [hasks]
    intro x hx
    rcases List.mem_map.mp hx with ⟨pv, hpv, rfl⟩
    exact ha.2 pv hpv
  · rw [hbids]
    intro x hx
    rcases List.mem_map.mp (List.mem_reverse.mp hx) with ⟨pv, hpv, rfl⟩
    exact hb.2 pv hpv

/-- `slot_depth` preserves the ladder invariants. -/
theorem slot_depth_inv {b : Book} {typ : String} {price dv tv : Int}
    (h : bookInv b) : bookInv (slot_depth b typ price dv tv).fst := by
  obtain ⟨hsa, hsb, hpa, hpb⟩ := h
  have ha := @update_list_inv "ask" price tv b.asks hsa hpa
  have hb := @update_list_inv "bid" price tv b.bids hsb hpb
  by_cases h1 : typ = "ask"
  · subst h1
    have he : (slot_depth b "ask" price dv tv).fst =
        { b with asks := update_list b.asks price tv "ask" } := by
      simp [slot_depth]
    rw [he]
    exact ⟨ha.1, hsb, ha.2, hpb⟩
  · by_cases h2 : typ = "bid"
    · subst h2
      have he : (slot_depth b "bid" price dv tv).fst =
          { b with bids := update_list b.bids price tv "bid" } := by
        simp [slot_depth]
      rw [he]
      exact ⟨hsa, hb.1, hpa, hb.2⟩
    · have he : (slot_depth b typ price dv tv).fst = b := by
        simp [slot_depth, h1, h2]
      rw [he]
      exact ⟨hsa, hsb, hpa, hpb⟩

/-- `slot_ticker` preserves the ladder invariants. -/
theorem slot_ticker_inv {b : Book} {bid ask : Int} (h : bookInv b) :
    bookInv (slot_ticker b bid ask).fst := by
  obtain ⟨hsa, hsb, hpa, hpb⟩ := h
  have sa := (List.dropWhile_suffix (l := b.asks)
    (fun o : Order => decide (o.price < ask))).sublist
  have sb := (List.dropWhile_suffix (l := b.bids)
    (fun o : Order => decide (o.price > bid))).sublist
  exact ⟨hsa.sublist sa, hsb.sublist sb, fun x hx => hpa x (sa.subset hx),
    fun x hx => hpb x (sb.subset hx)⟩

/-- A public trade preserves the ladder invariants. -/
theorem slot_trade_inv {b : Book} {date price volume : Int} (h : bookInv b) :
    bookInv (slot_trade b date price volume false).fst := by
  obtain ⟨hsa, hsb, hpa, hpb⟩ := h
  have ha := @trade_update_inv price volume "ask" b.asks hsa hpa
  have hb := @trade_update_inv price volume "bid" b.bids hsb hpb
  exact ⟨ha.1, hb.1, ha.2, hb.2⟩

instance (e : Event) : Decidable (goodEvent e) := by
  cases e with
  | ticker bid ask => exact Decidable.isTrue trivial
  | depth typ price voldiff total_vol => exact Decidable.isTrue trivial
  | trade date price volume => exact Decidable.isTrue trivial
  | fulldepth asks bids =>
    exact inferInstanceAs (Decidable (goodSnapshot asks ∧ goodSnapshot bids))

/-- Each event with a well-formed payload preserves the ladder
invariants. -/
theorem applyEvent_inv {b : Book} {e : Event} (h : bookInv b)
    (hg : goodEvent e) : bookInv (applyEvent b e) := by
  cases e with
  | ticker bid ask => exact slot_ticker_inv h
  | depth typ price voldiff total_vol => exact slot_depth_inv h
  | trade date price volume => exact slot_trade_inv h
  | fulldepth asks bids => exact slot_fulldepth_inv hg.1 hg.2

/-- The ladder invariants hold along any run of well-formed events. -/
theorem reach_inv : ∀ (events : List Event) (b : Book), bookInv b →
    (∀ e ∈ events, goodEvent e) → bookInv (reach b events) := by
  intro events
  induction events with
  | nil => intro b hb _; exact hb
  | cons e rest ih =>
    intro b hb hg
    exact ih _ (applyEvent_inv hb (hg e (List.mem_cons_self e rest)))
      (fun x hx => hg x (List.mem_cons_of_mem _ hx))

/-- The initial book satisfies the ladder invariants. -/
theorem emptyBook_inv : bookInv emptyBook := by
  refine ⟨List.Pairwise.nil, List.Pairwise.nil, ?_, ?_⟩ <;>
    intro o ho <;> simp [emptyBook] at ho

/-- Overwriting an identity map on orders whose price never matches. -/
theorem map_overwrite_eq_self {price total_vol : Int} :
    ∀ {l : List Order}, (∀ x ∈ l, x.price ≠ price) →
      l.map (fun o => if o.price = price then { o with volume := total_vol }
        else o) = l := by
  intro l
  induction l with
  | nil => intro _; rfl
  | cons o rest ih =>
    intro h
    have ho := h o (List.mem_cons_self o rest)
    simp only [List.map_cons, if_neg ho,
      ih (fun x hx => h x (List.mem_cons_of_mem _ hx))]

/-- On a sorted ladder that holds the price, `depth_insert` overwrites just
that level's volume. -/
theorem depth_insert_overwrite {typ : String} {price total_vol : Int} :
    ∀ {l : List Order}, sortedLadder typ l → (∃ x ∈ l, x.price = price) →
      depth_insert price total_vol typ l =
        l.map (fun o => if o.price = price then { o with volume := total_vol }
          else o) := by
  intro l
  induction l with
  | nil =>
    rintro _ ⟨x, hx, _⟩
    exact absurd hx (List.not_mem_nil x)
  | cons o rest ih =>
    intro hs hex
    rcases List.pairwise_cons.mp hs with ⟨hhead, htail⟩
    by_cases h1 : o.price = price
    · simp only [depth_insert, if_pos h1, List.map_cons]
      congr 1
      symm
      exact map_overwrite_eq_self
        (fun x hx hc => (ordRel_ne typ (hhead x hx)) (h1.trans hc.symm))
    · obtain ⟨x, hx, hxp⟩ := hex
      rcases List.mem_cons.mp hx with rfl | hx
      · exact absurd hxp h1
      · have hrel := hhead x hx
        rw [hxp] at hrel
        have hmib := ordRel_mib_false hrel
        simp only [depth_insert, if_neg h1, hmib, Bool.false_eq_true, if_false,
          List.map_cons]
        rw [ih htail ⟨x, hx, hxp⟩]

/-- On a ladder that does not hold the price, `depth_insert` inserts the new
level exactly before the first level that must come after it. -/
theorem depth_insert_new {typ : String} {price total_vol : Int} :
    ∀ {l : List Order}, (∀ x ∈ l, x.price ≠ price) →
      depth_insert price total_vol typ l =
        l.takeWhile (fun o => !must_insert_before o.price price typ) ++
          ⟨price, total_vol, typ, "", ""⟩ ::
            l.dropWhile (fun o => !must_insert_before o.price price typ) := by
  intro l
  induction l with
  | nil => intro _; rfl
  | cons o rest ih =>
    intro h
    have ho := h o (List.mem_cons_self o rest)
    by_cases hm : must_insert_before o.price price typ = true
    · simp only [depth_insert, if_neg ho, if_pos hm]
      rw [List.takeWhile_cons_of_neg (by simp [hm]),
        List.dropWhile_cons_of_neg (by simp [hm])]
      rfl
    · have hm0 : must_insert_before o.price price typ = false := by
        simpa using hm
      simp only [depth_insert, if_neg ho, hm0, Bool.false_eq_true, if_false]
      rw [List.takeWhile_cons_of_pos (by simp [hm0]),
        List.dropWhile_cons_of_pos (by simp [hm0]),
        ih (fun x hx => h x (List.mem_cons_of_mem _ hx))]
      rfl

/-- On a sorted ladder, `depth_remove` removes exactly the level with the
given price (and is the identity when it is absent). -/
theorem depth_remove_eq_filter {typ : String} {price : Int} :
    ∀ {l : List Order}, sortedLadder typ l →
      depth_remove price l = l.filter (fun o => o.price ≠ price) := by
  intro l
  induction l with
  | nil => intro _; rfl
  | cons o rest ih =>
    intro hs
    rcases List.pairwise_cons.mp hs with ⟨hhead, htail⟩
    by_cases h1 : o.price = price
    · simp only [depth_remove, if_pos h1]
      rw [List.filter_cons_of_neg (by simp [h1])]
      symm
      rw [List.filter_eq_self]
      intro x hx
      have hne := ordRel_ne typ (hhead x hx)
      simp only [decide_eq_true_eq]
      exact fun hc => hne (h1.trans hc.symm)
    · simp only [depth_remove, if_neg h1]
      rw [List.filter_cons_of_pos (by simp [h1]), ih htail]

/-! ### Claim theorems -/

/-- Book for the C1 failing input: two ask levels; the public trade matches
the second one. -/
def c1_book : Book :=
  { asks := [⟨100, 5, "ask", "", ""⟩, ⟨200, 7, "ask", "", ""⟩],
    bids := [], owns := [], bid := 0, ask := 0 }

/-- C1: the claim says a public trade decrements (and at `≤ 0` removes) the
ladder level whose price equals the trade price. On this input the ask
ladder holds a level at the trade price 200 with volume 7, so the claim
requires it to be removed; the code leaves the ladder unchanged, because the
scan in `OrderBook.slot_trade`'s `update_list` breaks out of the loop after
the first element regardless of a match. -/
theorem C1_trade_misses_matching_level :
    (∃ o ∈ c1_book.asks, o.price = 200) ∧
      (slot_trade c1_book 0 200 7 false).fst.asks =
        [⟨100, 5, "ask", "", ""⟩, ⟨200, 7, "ask", "", ""⟩] := by decide

/-- C2 counterexample: a depth event with `total_volume = 0` at a price
absent from the book is a no-op on the state, yet `OrderBook.slot_depth`
still emits `signal_changed` once (the claim demands zero emissions). -/
theorem C2_noop_depth_emits_once :
    (slot_depth emptyBook "ask" 100 0 0).fst = emptyBook ∧
      (slot_depth emptyBook "ask" 100 0 0).snd = 1 := by decide

/-- C2 amended: `slot_depth`, `slot_trade`, `slot_user_order` and
`slot_fulldepth` emit `signal_changed` exactly once on every call, mutating
or not (so a no-op depth event causes one emission, not zero), while
`slot_ticker` emits exactly once when it removes at least one level and zero
times otherwise. -/
theorem C2_signal_emissions (b : Book) (typ : String) (price dv tv : Int)
    (date tprice tvol : Int) (own : Bool) (uprice uvol : Int)
    (utyp uoid ustatus : String) (fa fb : List (Int × Int)) (tbid task : Int) :
    (slot_depth b typ price dv tv).snd = 1 ∧
    (slot_trade b date tprice tvol own).snd = 1 ∧
    (slot_user_order b uprice uvol utyp uoid ustatus).snd = 1 ∧
    (slot_fulldepth b fa fb).snd = 1 ∧
    ((slot_ticker b tbid task).snd = 0 ↔
      (slot_ticker b tbid task).fst.asks = b.asks ∧
      (slot_ticker b tbid task).fst.bids = b.bids) := by
  refine ⟨rfl, ?_, ?_, rfl, slot_ticker_noop_iff b tbid task⟩
  · cases own <;> rfl
  · unfold slot_user_order
    by_cases h : ustatus = "removed"
    · simp [h]
    · simp only [h, if_false]
      cases owns_update uoid uvol ustatus b.owns <;> rfl

/-- Witness for the amended C2 at concrete inputs: a mutating depth event
emits once, and a ticker that removes nothing emits zero times. -/
theorem C2_signal_emissions_witness :
    (slot_depth emptyBook "ask" 100 0 5).snd = 1 ∧
    ((slot_ticker emptyBook 90 100).snd = 0 ↔
      (slot_ticker emptyBook 90 100).fst.asks = emptyBook.asks ∧
      (slot_ticker emptyBook 90 100).fst.bids = emptyBook.bids) :=
  ⟨(C2_signal_emissions emptyBook "ask" 100 0 5 0 0 0 false 0 0 "" "" "" [] []
      90 100).1,
   (C2_signal_emissions emptyBook "ask" 100 0 5 0 0 0 false 0 0 "" "" "" [] []
      90 100).2.2.2.2⟩

/-- C4: processing a full-history snapshot does not agree with folding the
same trades through `History.slot_trade`. For the single trade
`(date 900, price 10, volume 5)` with timeframe 900, `slot_fullhistory`
creates the candle with the trade's volume and then calls `update` with the
same trade again, yielding volume 10, while the incremental path yields
volume 5. -/
theorem C4_fullhistory_double_counts_volume :
    slot_fullhistory 900 [⟨900, 10, 5⟩] = [⟨900, 10, 10, 10, 10, 10⟩] ∧
      ([⟨900, 10, 5⟩] : List TradeRec).foldl
        (fun cs t => history_slot_trade 900 cs t.date t.price_int t.amount_int false)
        [] = [⟨900, 10, 10, 10, 10, 5⟩] := by decide

/-- C7 counterexample: with exactly one connected subscriber that raises,
`Signal.send` returns `False` although a subscriber was present, refuting
"send returns True if and only if at least one subscriber was present". -/
theorem C7_send_false_with_subscriber_present :
    (send [bad_slot] 0).snd = false ∧ ([bad_slot] : List SlotFun).length = 1 :=
  ⟨rfl, rfl⟩

/-- C7 amended: every connected subscriber is invoked in registration order
even when an earlier one raises (the exception is caught and recorded), and
`send` returns `True` if and only if at least one subscriber was invoked
without raising. -/
theorem C7_send_trace_and_flag (slots : List SlotFun) (data : Int) :
    (send slots data).fst = slots.map (fun s => s data) ∧
      ((send slots data).snd = true ↔ ∃ s ∈ slots, slot_ok data s = true) := by
  refine ⟨send_go_trace data slots false, ?_⟩
  rw [send, send_go_flag]
  simp [List.any_eq_true]

/-- A slot that returns normally. -/
def ok_slot : SlotFun := fun _ => Except.ok ()

/-- Witness for the amended C7: with a raising subscriber followed by a
normal one, both are invoked in order and `send` returns `True`. -/
theorem C7_send_trace_and_flag_witness :
    (send [bad_slot, ok_slot] 0).fst = [Except.error "boom", Except.ok ()] ∧
    (send [bad_slot, ok_slot] 0).snd = true :=
  ⟨((C7_send_trace_and_flag [bad_slot, ok_slot] 0).1).trans rfl,
   ((C7_send_trace_and_flag [bad_slot, ok_slot] 0).2).mpr
     ⟨ok_slot, List.mem_cons_of_mem _ (List.mem_cons_self _ _), rfl⟩⟩

/-- C8 counterexample: with no credential known, `Gox.order` and
`Gox.cancel` do not return normally: `http_signed_call` returns `None` and
the subsequent `"result" in res` membership test raises a `TypeError`. -/
theorem C8_order_raises_without_secret :
    (gox_order no_secret stub_server "USD" "bid" 100 5).result =
      Except.error "TypeError: argument of type NoneType is not iterable" ∧
    (gox_cancel no_secret stub_server "USD" "oid1").result =
      Except.error "TypeError: argument of type NoneType is not iterable" :=
  ⟨rfl, rfl⟩

/-- C8 amended: while no credential is known, `http_signed_call` logs
"don't know secret, cannot call ...", performs no request and returns
`None`; `Gox.order` and `Gox.cancel` therefore perform no request, emit no
signal and leave state unchanged, but instead of returning normally they
raise a `TypeError` on the `None` result (their callers catch exceptions, so
the engine keeps operating in read-only mode). -/
theorem C8_no_secret_paths (sec : ApiSecret) (server : String → HttpResponse)
    (currency typ oid endpoint : String) (price volume : Int)
    (h : know_secret sec = false) :
    http_signed_call sec server endpoint =
      (none, [], ["### don\x27t know secret, cannot call " ++ endpoint]) ∧
    gox_order sec server currency typ price volume =
      { result := Except.error "TypeError: argument of type NoneType is not iterable",
        requests := [], signals := [],
        log := ["### don\x27t know secret, cannot call " ++
          ("BTC" ++ currency ++ "/private/order/add")] } ∧
    gox_cancel sec server currency oid =
      { result := Except.error "TypeError: argument of type NoneType is not iterable",
        requests := [], signals := [],
        log := ["### don\x27t know secret, cannot call " ++
          ("BTC" ++ currency ++ "/private/order/cancel")] } := by
  refine ⟨?_, ?_, ?_⟩ <;> simp [http_signed_call, gox_order, gox_cancel, h]

/-- Witness for the amended C8 at the empty credential pair. -/
theorem C8_no_secret_paths_witness :
    know_secret no_secret = false ∧
    http_signed_call no_secret stub_server "private/info" =
      (none, [], ["### don\x27t know secret, cannot call private/info"]) :=
  ⟨by decide,
   (C8_no_secret_paths no_secret stub_server "USD" "bid" "oid1" "private/info"
      100 5 (by decide)).1⟩

/-- C10: a ticker, depth or trade message whose currency field (the one the
handler checks) differs from the engine's configured currency is dropped
before any signal is emitted: the order book, the cached bid/ask and the
candle history are unchanged. -/
theorem C10_currency_filter (currency : String) (st : EngineState)
    (tm : TickerMsg) (dm : DepthMsg) (rm : TradeMsg) :
    (tm.sell_currency ≠ currency → gox_on_tick currency st tm = (st, 0)) ∧
    (dm.currency ≠ currency → gox_on_depth currency st dm = (st, 0)) ∧
    (rm.price_currency ≠ currency → gox_on_trade currency st rm = (st, 0)) := by
  refine ⟨fun h => ?_, fun h => ?_, fun h => ?_⟩ <;>
    simp [gox_on_tick, gox_on_depth, gox_on_trade, h]

/-- The engine state, ticker, depth and trade messages for the C10
witness: messages carry currency "EUR" while the engine runs on "USD". -/
def c10_state : EngineState := ⟨emptyBook, []⟩

def c10_tick : TickerMsg := ⟨"EUR", 1000, "EUR", 900⟩

def c10_depth : DepthMsg := ⟨"EUR", "ask", 1000, 1, 1⟩

def c10_trade : TradeMsg := ⟨"EUR", "dbf1dee9-4f2e-4a08-8cb7-748919a71b21", 0, 1000, 1⟩

/-- Witness for C10 at concrete mismatched messages. -/
theorem C10_currency_filter_witness :
    gox_on_tick "USD" c10_state c10_tick = (c10_state, 0) ∧
    gox_on_depth "USD" c10_state c10_depth = (c10_state, 0) ∧
    gox_on_trade "USD" c10_state c10_trade = (c10_state, 0) :=
  ⟨(C10_currency_filter "USD" c10_state c10_tick c10_depth c10_trade).1 (by decide),
   (C10_currency_filter "USD" c10_state c10_tick c10_depth c10_trade).2.1 (by decide),
   (C10_currency_filter "USD" c10_state c10_tick c10_depth c10_trade).2.2 (by decide)⟩

/-- Event sequence showing a crossed book: an ask level at 100 followed by a
depth insert of a bid level at 150. -/
def c3_bad_events : List Event :=
  [Event.depth "ask" 100 0 50, Event.depth "bid" 150 0 50]

/-- C3 counterexample: from the empty book, the legal depth sequence
`c3_bad_events` reaches a book whose best ask (100) is below its best bid
(150) — `slot_depth` never checks a new level against the other ladder, so
the claimed `asks[0].price > bids[0].price` invariant fails. -/
theorem C3_crossed_book_reachable :
    (reach emptyBook c3_bad_events).asks.head?.map Order.price = some 100 ∧
    (reach emptyBook c3_bad_events).bids.head?.map Order.price = some 150 ∧
    ¬((100 : Int) > 150) := by decide

/-- C3 amended: for every book reached from the empty book by ticker, depth
and public-trade events and by full-depth snapshots that are strictly
ascending with positive volumes, the ask ladder is strictly ascending, the
bid ladder strictly descending and every volume strictly positive. The
original claim's top-of-book crossing property `asks[0].price >
bids[0].price` is dropped: it is not preserved (see the counterexample). -/
theorem C3_ladder_invariants (events : List Event)
    (h : ∀ e ∈ events, goodEvent e) : bookInv (reach emptyBook events) :=
  reach_inv events emptyBook emptyBook_inv h

/-- A concrete run for the C3 witness: snapshot load, depth insert, public
trade, ticker trim. -/
def c3_events : List Event :=
  [Event.fulldepth [(100, 5), (110, 2)] [(90, 4), (95, 1)],
   Event.depth "ask" 101 0 3, Event.trade 0 101 1, Event.ticker 90 100]

/-- Witness for the amended C3 on a concrete event run. -/
theorem C3_ladder_invariants_witness : bookInv (reach emptyBook c3_events) :=
  C3_ladder_invariants c3_events (by decide)

/-- C5: semantics of one depth event on its side's ladder. Overwrite when
the price is present with positive total volume; insert at the scan position
when absent (which keeps the side sorted); remove exactly the matching level
when the total volume is zero. -/
theorem C5_depth_semantics (typ : String) (l : List Order)
    (price total_vol : Int) :
    (sortedLadder typ l → 0 < total_vol → (∃ x ∈ l, x.price = price) →
      update_list l price total_vol typ =
        l.map (fun o => if o.price = price then { o with volume := total_vol }
          else o)) ∧
    (0 < total_vol → (∀ x ∈ l, x.price ≠ price) →
      update_list l price total_vol typ =
        l.takeWhile (fun o => !must_insert_before o.price price typ) ++
          ⟨price, total_vol, typ, "", ""⟩ ::
            l.dropWhile (fun o => !must_insert_before o.price price typ)) ∧
    (sortedLadder typ l →
      update_list l price 0 typ = l.filter (fun o => o.price ≠ price)) ∧
    (sortedLadder typ l →
      sortedLadder typ (update_list l price total_vol typ)) := by
  refine ⟨fun hs hpos hex => ?_, fun hpos habs => ?_, fun hs => ?_, fun hs => ?_⟩
  · rw [update_list, if_pos hpos]
    exact depth_insert_overwrite hs hex
  · rw [update_list, if_pos hpos]
    exact depth_insert_new habs
  · rw [update_list, if_neg (by omega)]
    exact depth_remove_eq_filter hs
  · rw [update_list]
    split
    · exact depth_insert_sorted hs
    · exact hs.sublist (depth_remove_sublist price l)

/-- A sorted two-level ask ladder for the C5 witness. -/
def c5_ladder : List Order := [⟨100, 5, "ask", "", ""⟩, ⟨200, 7, "ask", "", ""⟩]

/-- Witness for C5: overwrite at 200, insert at 150, remove at 100. -/
theorem C5_depth_semantics_witness :
    update_list c5_ladder 200 9 "ask" =
      [⟨100, 5, "ask", "", ""⟩, ⟨200, 9, "ask", "", ""⟩] ∧
    update_list c5_ladder 150 3 "ask" =
      [⟨100, 5, "ask", "", ""⟩, ⟨150, 3, "ask", "", ""⟩, ⟨200, 7, "ask", "", ""⟩] ∧
    update_list c5_ladder 100 0 "ask" = [⟨200, 7, "ask", "", ""⟩] :=
  ⟨((C5_depth_semantics "ask" c5_ladder 200 9).1 (by decide) (by decide)
      (by decide)).trans (by decide),
   ((C5_depth_semantics "ask" c5_ladder 150 3).2.1 (by decide)
      (by decide)).trans (by decide),
   ((C5_depth_semantics "ask" c5_ladder 100 0).2.2.1 (by decide)).trans
      (by decide)⟩

/-- On a strictly ascending ask ladder, popping the head while it is below
the cutoff removes exactly the levels below the cutoff. -/
theorem sorted_dropWhile_lt_eq_filter (a : Int) :
    ∀ {l : List Order}, sortedLadder "ask" l →
      l.dropWhile (fun o => o.price < a) = l.filter (fun o => a ≤ o.price) := by
  intro l
  induction l with
  | nil => intro _; rfl
  | cons o rest ih =>
    intro hs
    rcases List.pairwise_cons.mp hs with ⟨hhead, htail⟩
    by_cases h : o.price < a
    · rw [List.dropWhile_cons_of_pos (by simpa using h),
        List.filter_cons_of_neg (by simpa using not_le.mpr h)]
      exact ih htail
    · rw [List.dropWhile_cons_of_neg (by simpa using h),
        List.filter_cons_of_pos (by simpa using not_lt.mp h)]
      congr 1
      symm
      rw [List.filter_eq_self]
      intro x hx
      have hlt := (ordRel_ask _ _).mp (hhead x hx)
      have hle : a ≤ o.price := not_lt.mp h
      simpa using le_trans hle (le_of_lt hlt)

/-- On a strictly descending bid ladder, popping the head while it is above
the cutoff removes exactly the levels above the cutoff. -/
theorem sorted_dropWhile_gt_eq_filter (a : Int) :
    ∀ {l : List Order}, sortedLadder "bid" l →
      l.dropWhile (fun o => o.price > a) = l.filter (fun o => o.price ≤ a) := by
  intro l
  induction l with
  | nil => intro _; rfl
  | cons o rest ih =>
    intro hs
    rcases List.pairwise_cons.mp hs with ⟨hhead, htail⟩
    by_cases h : o.price > a
    · rw [List.dropWhile_cons_of_pos (by simpa using h),
        List.filter_cons_of_neg (by simpa using not_le.mpr h)]
      exact ih htail
    · rw [List.dropWhile_cons_of_neg (by simpa using h),
        List.filter_cons_of_pos (by simpa using not_lt.mp h)]
      congr 1
      symm
      rw [List.filter_eq_self]
      intro x hx
      have hlt := (ordRel_bid _ _).mp (hhead x hx)
      have hle : o.price ≤ a := not_lt.mp h
      simpa using le_trans (le_of_lt hlt) hle

/-- C6: a ticker event on a book with sorted ladders stores the new cached
bid and ask, removes every ask level strictly below the new ask and every
bid level strictly above the new bid, and keeps all other levels. -/
theorem C6_ticker_prunes (b : Book) (bid ask : Int)
    (ha : sortedLadder "ask" b.asks) (hb : sortedLadder "bid" b.bids) :
    (slot_ticker b bid ask).fst =
      { b with
        bid := bid, ask := ask,
        asks := b.asks.filter (fun o => ask ≤ o.price),
        bids := b.bids.filter (fun o => o.price ≤ bid) } := by
  have e1 := sorted_dropWhile_lt_eq_filter ask ha
  have e2 := sorted_dropWhile_gt_eq_filter bid hb
  show ({ b with
    bid := bid, ask := ask,
    asks := b.asks.dropWhile (fun o => o.price < ask),
    bids := b.bids.dropWhile (fun o => o.price > bid) } : Book) = _
  rw [e1, e2]

/-- The S4 book of the spec for the C6 witness. -/
def c6_book : Book :=
  { asks := [⟨1000, 5, "ask", "", ""⟩, ⟨2000, 5, "ask", "", ""⟩],
    bids := [⟨900, 5, "bid", "", ""⟩], owns := [], bid := 0, ask := 0 }

/-- Witness for C6 on the spec's S4 scenario: ticker bid 950 / ask 1500
drops the 1000 ask level. -/
theorem C6_ticker_prunes_witness :
    (slot_ticker c6_book 950 1500).fst =
      { asks := [⟨2000, 5, "ask", "", ""⟩], bids := [⟨900, 5, "bid", "", ""⟩],
        owns := [], bid := 950, ask := 1500 } :=
  (C6_ticker_prunes c6_book 950 1500 (by decide) (by decide)).trans (by decide)

end Goxtool
